import Mathlib

/-!
Shallow embedding of the event-processing and dataset-assembly pipeline
(`utils.py` and `create_dataset.py`): the per-event transformer with its
trace integrator, the merger/shuffler, and the dataset writer/verifier.

Modelling conventions:
* numpy float arrays are nested `List ℝ`; the result of the trace
  normalization (which can divide by zero) lives in `FR`, a type that keeps
  IEEE-754 division outcomes (finite value, NaN, ±infinity) explicit;
* `np.array` built from an empty Python list is one-dimensional, so a
  three-index slice of it raises `IndexError`; this rank collapse is modelled
  by the `rank3` guard in `process_data` (computed from the raw nested list,
  whose shape the reader materializes);
* `np.squeeze` on the `(1, n, st)` array holding the rescaled total signal
  removes every unit axis, so the result keeps two dimensions only when
  `n ≥ 2` and `st ≥ 2`; this is modelled exactly by `npSqueeze`, whose
  result type `NpSq` carries the surviving rank, and the merge step's
  `lg_Stot.reshape(shape[0], shape[1], 1)` (or the concatenate) raises on
  any non-rank-2 result, which is the `lgStotRank2` guard in
  `merge_and_shuffle`;
* `np.random.RandomState(seed).shuffle` is a descending Fisher-Yates
  whose draw at stream position `k` is a deterministic function of the seed,
  the position and the bound; the generator is abstracted as a function
  `draw : seed → position → bound → Nat` (reduced modulo the bound), which
  is all the proofs need: the same seed and length give the same swaps.
-/

namespace ExploreSim

/-! ### IEEE division outcomes -/

/-- Outcome of a numpy float division: a finite real, or one of the
non-finite values NaN, `+inf`, `-inf` produced by dividing by zero. -/
inductive FR where
  | fin (x : ℝ)
  | nan
  | posInf
  | negInf

/-- Float division `x / m` with IEEE semantics for a zero denominator:
`0/0` is NaN and `x/0` for `x ≠ 0` is a signed infinity. -/
noncomputable def fdiv (x m : ℝ) : FR :=
  if m = 0 then (if x = 0 then .nan else if 0 < x then .posInf else .negInf)
  else .fin (x / m)

/-! ### Trace integrator (`utils.process_data`, lines 154-159) -/

/-- The operation `np.cumsum` on a one-dimensional array. -/
def cumsum : List ℝ → List ℝ
  | [] => []
  | x :: xs => x :: (cumsum xs).map (fun y => x + y)

/-- The operation `np.max` on a one-dimensional array (the source only applies it to
non-empty arrays; the empty case here is a junk value `0`). -/
def listMax : List ℝ → ℝ
  | [] => 0
  | x :: xs => xs.foldl max x

/-- One station's pass of the trace integrator: truncate the waveform to its
first 150 bins (`traces[:, :, :150]`), take `np.cumsum`, and divide by
`np.max` of the cumulative sum (`stat / np.max(stat)`). -/
noncomputable def normalizeStation (stat : List ℝ) : List FR :=
  let c := cumsum (stat.take 150)
  c.map (fun y => fdiv y (listMax c))

/-- The station pass with plain real division, used by the heap model of the
in-place loop, where only which buffer is written matters. -/
noncomputable def normalizeStationR (stat : List ℝ) : List ℝ :=
  let c := cumsum (stat.take 150)
  c.map (fun y => y / listMax c)

/-! ### Signal rescaling (`utils.rescale_Stot`) -/

/-- The elementwise operation of `rescale_Stot`:
`np.log10(xi + 1.0) / math.log10(Snorm + 1)` (the literal `1.0` is the real
number `1`). -/
noncomputable def rescaleStotVal (v Snorm : ℝ) : ℝ :=
  Real.logb 10 (v + 1) / Real.logb 10 (Snorm + 1)

/-- The function `rescale_Stot(x_list, Snorm)`: the comprehension iterates over the rows
of the per-event, per-station `Stot` array and `np.log10` acts elementwise
on each row. -/
noncomputable def rescale_Stot (x_list : List (List ℝ)) (Snorm : ℝ) : List (List ℝ) :=
  x_list.map (fun xi => xi.map (fun v => rescaleStotVal v Snorm))

/-! ### Squeezed arrays -/

/-- A numpy float array of rank at most 2, the possible results of
`np.squeeze` on the `(1, n, st)` array built around the rescaled total
signal: a 0-dimensional scalar, a 1-dimensional vector, or a
2-dimensional matrix. -/
inductive NpSq where
  | r0 (x : ℝ)
  | r1 (a : List ℝ)
  | r2 (a : List (List ℝ))

/-- The composite `np.squeeze(np.array([a]))` for a nested row list `a` of
shape `(n, st)` (so the ndarray has shape `(1, n, st)`): squeeze removes
every unit axis.  `n = 0` gives the `(1, 0)` array whose squeeze is the
empty `(0,)` vector; `n = 1, st = 1` collapses to a 0-d scalar;
`n = 1, st ≠ 1` leaves the `(st,)` station vector; `n ≥ 2, st = 1` leaves
the `(n,)` per-event vector; anything else stays rank 2.  (Rectangular
rows, as numpy requires, are assumed.) -/
noncomputable def npSqueeze (a : List (List ℝ)) : NpSq :=
  match a with
  | [] => .r1 []
  | [r] => if r.length = 1 then .r0 (r.headD 0) else .r1 r
  | _ =>
      if a.all (fun q => decide (q.length = 1)) then .r1 (a.map (fun q => q.headD 0))
      else .r2 a

/-- The rows along the leading axis of a squeezed array.  Only the rank-2
case is ever consumed by the merge step (the source aborts on the others,
see `lgStotRank2`); for lower ranks the entries of the leading axis are
scalars and are wrapped as singleton rows purely so that leading-axis
lengths can be stated uniformly. -/
def stotRows : NpSq → List (List ℝ)
  | .r0 x => [[x]]
  | .r1 a => a.map (fun x => [x])
  | .r2 a => a

/-! ### Data model (`utils.TreeData`, `utils.ProcessedData`) -/

/-- Data from a single tree: one row per event; `Dist`, `Stot` and `azimuth`
carry one value per ranked station, `traces` one waveform per station. -/
structure TreeData where
  Ene_MC : List ℝ
  Ene : List ℝ
  Dist : List (List ℝ)
  traces : List (List (List ℝ))
  ID : List ℝ
  t0 : List ℝ
  theta : List ℝ
  Stot : List (List ℝ)
  S1000 : List ℝ
  azimuth : List (List ℝ)
  Nstat : List ℝ

/-- Processed data from a single tree, as produced by `process_data`. -/
structure ProcessedData where
  lgE_MC : List ℝ
  lgE : List ℝ
  Dist : List (List ℝ)
  traces_cum : List (List (List FR))
  ID : List ℝ
  t0 : List ℝ
  theta : List ℝ
  lg_Stot : NpSq
  lg_S1000 : List ℝ
  azimuth : List (List ℝ)
  Nstat : List ℝ
  label : ℤ

/-! ### Per-event transformer (`utils.process_data`) -/

/-- The value `np.radians(60)`. -/
noncomputable def radians60 : ℝ := 60 * (Real.pi / 180)

/-- The operation `np.degrees` on one value. -/
noncomputable def degreesVal (v : ℝ) : ℝ := v * (180 / Real.pi)

/-- The operation `np.mean` over all entries of an array (junk `0` on an empty array,
where numpy yields NaN with a warning; the value is then never used on data). -/
noncomputable def listMean (l : List ℝ) : ℝ := l.sum / l.length

/-- Whether `np.array` materializes the raw nested trace list with at least
three dimensions: an empty event list gives a `(0,)`-shaped array and an
empty first event gives `(n, 0)`; both make the slice `[:, :, :150]` raise
`IndexError`. (Rectangularity of reader output is assumed.) -/
def rank3 : List (List (List ℝ)) → Bool
  | [] => false
  | ev :: _ => !ev.isEmpty

/-- The index array `np.where(tree_data_input.theta < np.radians(60))[0]`: the indices of
events passing the zenith-angle cut, in increasing order. -/
noncomputable def selIndices (t : TreeData) : List Nat :=
  (List.range t.theta.length).filter (fun i => decide (t.theta.getD i 0 < radians60))

/-- The filtered `TreeData` built in `process_data` when `sel_theta` is set:
every column is indexed by the same `filtered_indices`. -/
noncomputable def theta_filtered (t : TreeData) : TreeData where
  Ene_MC := (selIndices t).map (fun i => t.Ene_MC.getD i 0)
  Ene := (selIndices t).map (fun i => t.Ene.getD i 0)
  Dist := (selIndices t).map (fun i => t.Dist.getD i [])
  traces := (selIndices t).map (fun i => t.traces.getD i [])
  ID := (selIndices t).map (fun i => t.ID.getD i 0)
  t0 := (selIndices t).map (fun i => t.t0.getD i 0)
  theta := (selIndices t).map (fun i => t.theta.getD i 0)
  Stot := (selIndices t).map (fun i => t.Stot.getD i [])
  S1000 := (selIndices t).map (fun i => t.S1000.getD i 0)
  azimuth := (selIndices t).map (fun i => t.azimuth.getD i [])
  Nstat := (selIndices t).map (fun i => t.Nstat.getD i 0)

/-- Errors `process_data` can raise: `IndexErr` models the `IndexError` from
slicing a sub-3-dimensional traces array with three indices, `ValueErr` the
`ValueError` from `np.max` of an empty (zero-bin) station waveform. -/
inductive ProcErr where
  | IndexErr
  | ValueErr
deriving DecidableEq

/-- The transformer `utils.process_data`: optional zenith filter, log/degree transforms,
distance normalization, signal rescaling and the trace integrator. -/
noncomputable def process_data (tree_data_input : TreeData) (sel_theta : Bool)
    (label_val : ℤ) (Snorm : ℝ) : Except ProcErr ProcessedData :=
  let td := if sel_theta then theta_filtered tree_data_input else tree_data_input
  let Nstat := td.Nstat.map (Real.logb 10)
  let lg_Stot := rescale_Stot td.Stot Snorm
  let lg_Stot := npSqueeze lg_Stot
  let theta_deg := td.theta.map degreesVal
  let lg_S1000 := td.S1000.map (Real.logb 10)
  let lgE := td.Ene.map (Real.logb 10)
  let lgE_MC := td.Ene_MC.map (Real.logb 10)
  let azimuth_deg := td.azimuth.map (fun r => r.map degreesVal)
  let Dist_1500 := td.Dist.map (fun r => r.map (fun v => v / 1500))
  let mean := listMean Dist_1500.flatten
  let Dist_norm := Dist_1500.map (fun r => r.map (fun v => v - mean))
  if rank3 tree_data_input.traces then
    if td.traces.all (fun ev => ev.all (fun stat => !(stat.take 150).isEmpty)) then
      .ok { lgE_MC := lgE_MC, lgE := lgE, Dist := Dist_norm,
            traces_cum := td.traces.map (fun ev => ev.map normalizeStation),
            ID := td.ID, t0 := td.t0, theta := theta_deg, lg_Stot := lg_Stot,
            lg_S1000 := lg_S1000, azimuth := azimuth_deg, Nstat := Nstat,
            label := label_val }
    else .error .ValueErr
  else .error .IndexErr

/-! ### Seeded shuffle (`create_dataset.shuffle_arrays`)

`np.random.RandomState(seed).shuffle(arr)` runs a descending Fisher-Yates:
for `i = n-1, …, 1` it draws `j = randint(0, i+1)` and swaps `arr[i]` and
`arr[j]`.  The draw at stream position `k` with bound `b` is a deterministic
function of `(seed, k, b)`; it is abstracted below as `draw seed k b % b`.
`shuffle_arrays` re-seeds a fresh `RandomState(seed)` for every array, so
all arrays of one call see the same swap sequence. -/

/-- The `k`-th value `randint(0, b)` drawn from a fresh `RandomState(seed)`
stream, for an abstract generator `draw`. -/
def drawBelow (draw : Nat → Nat → Nat → Nat) (seed k b : Nat) : Nat :=
  draw seed k b % b

/-- Swap the entries of a list at positions `i` and `j` (no-op when a
position is out of range; Fisher-Yates only swaps in-range positions). -/
def swapList {α : Type _} (l : List α) (i j : Nat) : List α :=
  match l.get? i, l.get? j with
  | some a, some b => (l.set i b).set j a
  | _, _ => l

/-- The Fisher-Yates loop: the counter `c` is the position being swapped
(`c = n-1` first, stopping after `c = 1`), and `n - (c + 1)` is the stream
position of the corresponding draw, whose bound is `c + 1`. -/
def fyAux (draw : Nat → Nat → Nat → Nat) (seed n : Nat) :
    Nat → List α → List α
  | 0, l => l
  | c + 1, l =>
      fyAux draw seed n c (swapList l (c + 1) (drawBelow draw seed (n - (c + 2)) (c + 2)))

/-- The shuffle `rstate.shuffle(arr)` for `rstate = np.random.RandomState(seed)`. -/
def npShuffle (draw : Nat → Nat → Nat → Nat) (seed : Nat) (l : List α) : List α :=
  fyAux draw seed l.length (l.length - 1) l

/-- The permutation of row indices realized by `npShuffle` on any array of
`n` rows: the shuffle applied to `[0, …, n-1]`. -/
def npPerm (draw : Nat → Nat → Nat → Nat) (seed n : Nat) : List Nat :=
  npShuffle draw seed (List.range n)

/-- The effective seed of `shuffle_arrays`: `set_seed` itself when
`set_seed ≥ 0`, else one fresh value `np.random.randint(0, 2**31 - 1)`;
the ambient entropy of that global draw is an explicit parameter. -/
def seedOf (entropy : Nat) (set_seed : Int) : Nat :=
  if set_seed < 0 then entropy % (2 ^ 31 - 1) else set_seed.toNat

/-! ### Merger/shuffler (`create_dataset.merge_and_shuffle`) -/

/-- The function `create_info_event`: `np.column_stack((theta, lg_S1000, Nstat))`. -/
def create_info_event (d : ProcessedData) : List (List ℝ) :=
  (d.theta.zip (d.lg_S1000.zip d.Nstat)).map (fun p => [p.1, p.2.1, p.2.2])

/-- Concatenated `traces_cum` of all batches (`np.concatenate`). -/
def concatTraces (ds : List ProcessedData) : List (List (List FR)) :=
  (ds.map (fun d => d.traces_cum)).flatten

/-- Concatenated labels: `np.full_like(data.lgE_MC, data.label)` per batch. -/
def concatLabels (ds : List ProcessedData) : List ℝ :=
  (ds.map (fun d => List.replicate d.lgE_MC.length ((d.label : ℝ)))).flatten

/-- Concatenated normalized distances. -/
def concatDist (ds : List ProcessedData) : List (List ℝ) :=
  (ds.map (fun d => d.Dist)).flatten

/-- Concatenated azimuths. -/
def concatAzimuth (ds : List ProcessedData) : List (List ℝ) :=
  (ds.map (fun d => d.azimuth)).flatten

/-- Concatenated rescaled total signals (the rows along the leading axis
of each batch's squeezed `lg_Stot`). -/
def concatStot (ds : List ProcessedData) : List (List ℝ) :=
  (ds.map (fun d => stotRows d.lg_Stot)).flatten

/-- Concatenated `info_event` rows. -/
def concatInfo (ds : List ProcessedData) : List (List ℝ) :=
  (ds.map (fun d => create_info_event d)).flatten

/-- The reshape `traces.reshape(n0, n1, n2, 1)`: a trailing singleton axis. -/
def tracesReshaped (ds : List ProcessedData) : List (List (List (List FR))) :=
  (concatTraces ds).map (fun ev => ev.map (fun stat => stat.map (fun x => [x])))

/-- The reshape `Dist_norm.reshape(n0, n1, 1)`. -/
def distReshaped (ds : List ProcessedData) : List (List (List ℝ)) :=
  (concatDist ds).map (fun r => r.map (fun x => [x]))

/-- The reshape `azimuth.reshape(n0, n1, 1)`. -/
def azReshaped (ds : List ProcessedData) : List (List (List ℝ)) :=
  (concatAzimuth ds).map (fun r => r.map (fun x => [x]))

/-- The reshape `lg_Stot.reshape(n0, n1, 1)`. -/
def stotReshaped (ds : List ProcessedData) : List (List (List ℝ)) :=
  (concatStot ds).map (fun r => r.map (fun x => [x]))

/-- The reshape `info_events.reshape(n0, n1, 1)`. -/
def infoReshaped (ds : List ProcessedData) : List (List (List ℝ)) :=
  (concatInfo ds).map (fun r => r.map (fun x => [x]))

/-- The `assert` of `shuffle_arrays`: every array in
`[traces, labels, Dist_norm, info_events, azimuth, lg_Stot]` has the length
of the first one. -/
def lensOK (ds : List ProcessedData) : Bool :=
  decide ((concatLabels ds).length = (tracesReshaped ds).length) &&
  decide ((distReshaped ds).length = (tracesReshaped ds).length) &&
  decide ((infoReshaped ds).length = (tracesReshaped ds).length) &&
  decide ((azReshaped ds).length = (tracesReshaped ds).length) &&
  decide ((stotReshaped ds).length = (tracesReshaped ds).length)

/-- Whether the squeezed `lg_Stot` of one batch is still two-dimensional.
When any batch's result is of lower rank, the merge step's
`lg_Stot.reshape(shape[0], shape[1], 1)` (or the concatenate of mixed
ranks) raises a numpy shape error before the length assert. -/
def lgStotRank2 : NpSq → Bool
  | .r2 _ => true
  | _ => false

/-- Merge-level errors: the numpy shape error raised by a degenerate
reshape/concatenate, and the `AssertionError` of `shuffle_arrays` (the
spec's `LengthMismatch`). -/
inductive MergeErr where
  | ShapeErr
  | LengthMismatch
deriving DecidableEq

/-- A value stored in the compressed container: a rank-1 or rank-3 float
array, or the rank-4 array of normalized traces. -/
inductive NpVal where
  | r1 (a : List ℝ)
  | r3 (a : List (List (List ℝ)))
  | t4 (a : List (List (List (List FR))))

/-- The container written by `np.savez_compressed`, with the six keys in
the order of the keyword arguments of the `savez` call. -/
def mergeContainer (draw : Nat → Nat → Nat → Nat) (seed : Nat)
    (ds : List ProcessedData) : List (String × NpVal) :=
  [("traces", .t4 (npShuffle draw seed (tracesReshaped ds))),
   ("dist", .r3 (npShuffle draw seed (distReshaped ds))),
   ("Stot", .r3 (npShuffle draw seed (stotReshaped ds))),
   ("azimuthSP", .r3 (npShuffle draw seed (azReshaped ds))),
   ("info_event", .r3 (npShuffle draw seed (infoReshaped ds))),
   ("labels", .r1 (npShuffle draw seed (concatLabels ds)))]

/-- The merger `create_dataset.merge_and_shuffle`: concatenate the batches, reshape,
shuffle every array with an identically-seeded generator, and write the six
arrays.  An empty batch list makes `np.concatenate` raise, and a squeezed
`lg_Stot` of rank below 2 makes its reshape raise; both precede the length
assert, whose failure is the `LengthMismatch` outcome. -/
def merge_and_shuffle (draw : Nat → Nat → Nat → Nat) (entropy : Nat)
    (ds : List ProcessedData) (set_seed : Int) :
    Except MergeErr (List (String × NpVal)) :=
  if ds.isEmpty then .error .ShapeErr
  else if ds.all (fun d => lgStotRank2 d.lg_Stot) then
    if lensOK ds then .ok (mergeContainer draw (seedOf entropy set_seed) ds)
    else .error .LengthMismatch
  else .error .ShapeErr

/-! ### Writer verification (`create_dataset.load_npz_file`) -/

/-- The verifier `load_npz_file` reopens the container and accesses each of the six keys
(a missing key would raise `KeyError`, modelled as `none`). -/
def load_npz_file (c : List (String × NpVal)) : Option (List NpVal) :=
  match c.lookup "traces", c.lookup "dist", c.lookup "Stot",
        c.lookup "azimuthSP", c.lookup "info_event", c.lookup "labels" with
  | some t, some d, some s, some a, some i, some l => some [t, d, s, a, i, l]
  | _, _, _, _, _, _ => none

/-! ### Heap model of the trace-normalization loop
(`utils.process_data`, lines 151-159)

The only writes `process_data` performs go through the view
`traces_cum = traces[:, :, :150]` into the buffer created by
`traces = np.copy(tree_data.traces)`.  To state that the caller's arrays are
untouched, buffers live in an allocation-counted heap; `np.copy` allocates a
fresh cell and the loop's assignments update that cell only. -/

/-- A heap of 3-dimensional float buffers with an allocation counter. -/
structure TraceHeap where
  next : Nat
  mem : Nat → List (List (List ℝ))

/-- Read the buffer at reference `r`. -/
def readH (h : TraceHeap) (r : Nat) : List (List (List ℝ)) := h.mem r

/-- Overwrite the buffer at reference `r`. -/
def writeH (h : TraceHeap) (r : Nat) (v : List (List (List ℝ))) : TraceHeap :=
  { next := h.next, mem := fun q => if q = r then v else h.mem q }

/-- Allocate a fresh buffer holding `v` (what `np.copy` does). -/
def allocH (h : TraceHeap) (v : List (List (List ℝ))) : TraceHeap × Nat :=
  ({ next := h.next + 1, mem := fun q => if q = h.next then v else h.mem q }, h.next)

/-- Replace station `i` of event `j` in a 3-dimensional buffer. -/
def set3 (a : List (List (List ℝ))) (j i : Nat) (v : List ℝ) :
    List (List (List ℝ)) :=
  a.set j ((a.getD j []).set i v)

/-- One iteration `traces_cum[j][i] = stat / np.max(stat)`: the assignment
through the 150-bin view rewrites bins `0..149` of station `(j, i)` in the
buffer `r` and leaves any later bins of that buffer in place. -/
noncomputable def stationWrite (h : TraceHeap) (r j i : Nat) : TraceHeap :=
  let row := ((readH h r).getD j []).getD i []
  writeH h r (set3 (readH h r) j i (normalizeStationR row ++ row.drop 150))

/-- The `(j, i)` iteration space of the two nested `for` loops. -/
def idxPairs (a : List (List (List ℝ))) : List (Nat × Nat) :=
  ((List.range a.length).map
    (fun j => (List.range (a.getD j []).length).map (fun i => (j, i)))).flatten

/-- The two nested loops over `traces_cum`, writing one station at a time. -/
noncomputable def traces_loop (h : TraceHeap) (r : Nat) : TraceHeap :=
  (idxPairs (readH h r)).foldl (fun hh p => stationWrite hh r p.1 p.2) h

/-- Lines 151-159 of `process_data` as a heap program: copy the input
buffer (`np.copy`), then run the normalization loop on the copy; the result
is the reference holding the normalized traces. -/
noncomputable def process_data_traces (h : TraceHeap) (rIn : Nat) : TraceHeap × Nat :=
  let hc := allocH h (readH h rIn)
  (traces_loop hc.1 hc.2, hc.2)

/-! ### Lemmas about the seeded shuffle -/

theorem swapList_length {α : Type _} (l : List α) (i j : Nat) :
    (swapList l i j).length = l.length := by
  unfold swapList
  cases h1 : l.get? i <;> cases h2 : l.get? j <;> simp

theorem fyAux_length (draw : Nat → Nat → Nat → Nat) (seed n c : Nat)
    (l : List α) : (fyAux draw seed n c l).length = l.length := by
  induction c generalizing l with
  | zero => rfl
  | succ c ih => rw [fyAux, ih, swapList_length]

theorem npShuffle_length (draw : Nat → Nat → Nat → Nat) (seed : Nat)
    (l : List α) : (npShuffle draw seed l).length = l.length :=
  fyAux_length draw seed l.length (l.length - 1) l

theorem npPerm_length (draw : Nat → Nat → Nat → Nat) (seed n : Nat) :
    (npPerm draw seed n).length = n := by
  rw [npPerm, npShuffle_length, List.length_range]

theorem swapList_map (f : α → β) (l : List α) (i j : Nat) :
    swapList (l.map f) i j = (swapList l i j).map f := by
  unfold swapList
  simp only [List.get?_eq_getElem?, List.getElem?_map]
  cases h1 : l[i]? <;> cases h2 : l[j]? <;> simp [h1, h2, List.map_set]

theorem fyAux_map (draw : Nat → Nat → Nat → Nat) (seed n c : Nat)
    (f : α → β) (l : List α) :
    fyAux draw seed n c (l.map f) = (fyAux draw seed n c l).map f := by
  induction c generalizing l with
  | zero => rfl
  | succ c ih => rw [fyAux, fyAux, swapList_map, ih]

theorem map_getD_range (l : List α) (d : α) :
    (List.range l.length).map (fun j => l.getD j d) = l := by
  induction l with
  | nil => rfl
  | cons x xs ih =>
      rw [List.length_cons, List.range_succ_eq_map, List.map_cons, List.map_map]
      have hcomp : ((fun j => (x :: xs).getD j d) ∘ Nat.succ) = (fun j => xs.getD j d) := by
        funext j
        rfl
      rw [hcomp, ih]
      rfl

/-- Shuffling any list realizes the index permutation `npPerm` of its
length: row `i` of the shuffled list is row `(npPerm …)[i]` of the input. -/
theorem npShuffle_eq_map_perm (draw : Nat → Nat → Nat → Nat) (seed : Nat)
    (l : List α) (d : α) :
    npShuffle draw seed l = (npPerm draw seed l.length).map (fun j => l.getD j d) := by
  have h0 : npShuffle draw seed l
      = fyAux draw seed l.length (l.length - 1) ((List.range l.length).map (fun j => l.getD j d)) := by
    rw [map_getD_range]; rfl
  rw [h0, fyAux_map, npPerm, npShuffle, List.length_range]

theorem mem_swapList {α : Type _} {l : List α} {i j : Nat} {x : α}
    (hx : x ∈ swapList l i j) : x ∈ l := by
  revert hx
  unfold swapList
  cases h1 : l.get? i <;> cases h2 : l.get? j <;> intro hx
  · exact hx
  · exact hx
  · exact hx
  · rcases List.mem_or_eq_of_mem_set hx with hx' | rfl
    · rcases List.mem_or_eq_of_mem_set hx' with hx'' | rfl
      · exact hx''
      · exact List.get?_mem h2
    · exact List.get?_mem h1

theorem mem_fyAux {draw : Nat → Nat → Nat → Nat} {seed n c : Nat}
    {l : List α} {x : α} (hx : x ∈ fyAux draw seed n c l) : x ∈ l := by
  induction c generalizing l with
  | zero => exact hx
  | succ c ih => exact mem_swapList (ih hx)

theorem mem_npShuffle {draw : Nat → Nat → Nat → Nat} {seed : Nat}
    {l : List α} {x : α} (hx : x ∈ npShuffle draw seed l) : x ∈ l :=
  mem_fyAux hx

theorem npPerm_mem_lt {draw : Nat → Nat → Nat → Nat} {seed n k : Nat}
    (hk : k ∈ npPerm draw seed n) : k < n :=
  List.mem_range.mp (mem_npShuffle hk)

theorem cons_set_perm (t : List α) (k : Nat) (x b : α)
    (hb : t.get? k = some b) : List.Perm (x :: t) (b :: t.set k x) := by
  induction t generalizing k with
  | nil => simp at hb
  | cons y s ih =>
      cases k with
      | zero =>
          rw [List.get?] at hb
          cases hb
          exact List.Perm.swap b x s
      | succ m =>
          rw [List.get?] at hb
          calc
            List.Perm (x :: y :: s) (y :: x :: s) := List.Perm.swap y x s
            List.Perm _ (y :: b :: s.set m x) := List.Perm.cons y (ih m hb)
            List.Perm _ (b :: y :: s.set m x) := List.Perm.swap b y (s.set m x)

theorem set_set_perm (l : List α) (i j : Nat) (a b : α)
    (ha : l.get? i = some a) (hb : l.get? j = some b) :
    List.Perm ((l.set i b).set j a) l := by
  induction l generalizing i j with
  | nil => simp at ha
  | cons x t ih =>
      cases i with
      | zero =>
          rw [List.get?] at ha
          cases ha
          cases j with
          | zero =>
              rw [List.get?] at hb
              cases hb
              simp
          | succ m =>
              rw [List.get?] at hb
              rw [List.set_cons_zero, List.set_cons_succ]
              exact (cons_set_perm t m a b hb).symm
      | succ k =>
          rw [List.get?] at ha
          cases j with
          | zero =>
              rw [List.get?] at hb
              cases hb
              rw [List.set_cons_succ, List.set_cons_zero]
              exact (cons_set_perm t k b a ha).symm
          | succ m =>
              rw [List.get?] at hb
              rw [List.set_cons_succ, List.set_cons_succ]
              exact List.Perm.cons x (ih k m ha hb)

theorem swapList_perm (l : List α) (i j : Nat) :
    List.Perm (swapList l i j) l := by
  unfold swapList
  cases h1 : l.get? i <;> cases h2 : l.get? j
  · exact List.Perm.refl l
  · exact List.Perm.refl l
  · exact List.Perm.refl l
  · exact set_set_perm l i j _ _ h1 h2

theorem fyAux_perm (draw : Nat → Nat → Nat → Nat) (seed n c : Nat)
    (l : List α) : List.Perm (fyAux draw seed n c l) l := by
  induction c generalizing l with
  | zero => exact List.Perm.refl l
  | succ c ih => exact (ih _).trans (swapList_perm l _ _)

theorem npShuffle_perm (draw : Nat → Nat → Nat → Nat) (seed : Nat)
    (l : List α) : List.Perm (npShuffle draw seed l) l :=
  fyAux_perm draw seed l.length (l.length - 1) l

/-- The index list `npPerm draw seed n` is a permutation of `[0, …, n-1]`. -/
theorem npPerm_perm_range (draw : Nat → Nat → Nat → Nat) (seed n : Nat) :
    List.Perm (npPerm draw seed n) (List.range n) :=
  npShuffle_perm draw seed (List.range n)

theorem getD_map_of_lt (f : α → β) (l : List α) (i : Nat) (d : β) (dα : α)
    (hi : i < l.length) : (l.map f).getD i d = f (l.getD i dα) := by
  rw [List.getD_eq_getElem?_getD, List.getD_eq_getElem?_getD,
    List.getElem?_map, List.getElem?_eq_getElem hi]
  rfl

theorem getD_mem_of_lt (l : List α) (i : Nat) (d : α) (hi : i < l.length) :
    l.getD i d ∈ l := by
  rw [List.getD_eq_getElem?_getD, List.getElem?_eq_getElem hi]
  exact List.getElem_mem hi

/-- Row `i` of a shuffled array of `N` rows is row `(npPerm …)[i]` of the
array before shuffling. -/
theorem shuffle_row_origin (draw : Nat → Nat → Nat → Nat) (seed : Nat)
    (l : List α) (N i : Nat) (d : α) (hlen : l.length = N) (hi : i < N) :
    (npShuffle draw seed l).getD i d
      = l.getD ((npPerm draw seed N).getD i 0) d := by
  subst hlen
  rw [npShuffle_eq_map_perm draw seed l d]
  exact getD_map_of_lt _ _ i d 0 (by rw [npPerm_length]; exact hi)

theorem lensOK_eq_true_iff (ds : List ProcessedData) :
    lensOK ds = true
      ↔ ((concatLabels ds).length = (concatTraces ds).length
          ∧ (concatDist ds).length = (concatTraces ds).length
          ∧ (concatInfo ds).length = (concatTraces ds).length
          ∧ (concatAzimuth ds).length = (concatTraces ds).length
          ∧ (concatStot ds).length = (concatTraces ds).length) := by
  have ht : (tracesReshaped ds).length = (concatTraces ds).length := List.length_map ..
  have hd : (distReshaped ds).length = (concatDist ds).length := List.length_map ..
  have hi : (infoReshaped ds).length = (concatInfo ds).length := List.length_map ..
  have ha : (azReshaped ds).length = (concatAzimuth ds).length := List.length_map ..
  have hs : (stotReshaped ds).length = (concatStot ds).length := List.length_map ..
  simp only [lensOK, Bool.and_eq_true, decide_eq_true_eq, ht, hd, hi, ha, hs]
  tauto

/-- C1: for every list of processed batches and every seed, the
merge/shuffle step applies one single permutation of the event axis —
`npPerm` of the common length — identically to all six output arrays: the
merge succeeds and, for every post-shuffle row index `i`, row `i` of each of
the six arrays is row `(npPerm …)[i]` of the corresponding pre-shuffle
concatenated array, so cross-array row correspondence is preserved exactly;
moreover the index list is a genuine permutation of `0, …, N-1`. -/
theorem C1_merge_single_permutation (draw : Nat → Nat → Nat → Nat)
    (entropy : Nat) (set_seed : Int) (ds : List ProcessedData) (i : Nat)
    (hne : ds ≠ [])
    (hrank : ∀ d ∈ ds, lgStotRank2 d.lg_Stot = true)
    (hlen : lensOK ds = true)
    (hi : i < (tracesReshaped ds).length) :
    merge_and_shuffle draw entropy ds set_seed
        = .ok (mergeContainer draw (seedOf entropy set_seed) ds)
    ∧ (npPerm draw (seedOf entropy set_seed) (tracesReshaped ds).length).getD i 0
        < (tracesReshaped ds).length
    ∧ List.Perm (npPerm draw (seedOf entropy set_seed) (tracesReshaped ds).length)
        (List.range (tracesReshaped ds).length)
    ∧ (npShuffle draw (seedOf entropy set_seed) (tracesReshaped ds)).getD i []
        = (tracesReshaped ds).getD
            ((npPerm draw (seedOf entropy set_seed) (tracesReshaped ds).length).getD i 0) []
    ∧ (npShuffle draw (seedOf entropy set_seed) (concatLabels ds)).getD i 0
        = (concatLabels ds).getD
            ((npPerm draw (seedOf entropy set_seed) (tracesReshaped ds).length).getD i 0) 0
    ∧ (npShuffle draw (seedOf entropy set_seed) (distReshaped ds)).getD i []
        = (distReshaped ds).getD
            ((npPerm draw (seedOf entropy set_seed) (tracesReshaped ds).length).getD i 0) []
    ∧ (npShuffle draw (seedOf entropy set_seed) (infoReshaped ds)).getD i []
        = (infoReshaped ds).getD
            ((npPerm draw (seedOf entropy set_seed) (tracesReshaped ds).length).getD i 0) []
    ∧ (npShuffle draw (seedOf entropy set_seed) (azReshaped ds)).getD i []
        = (azReshaped ds).getD
            ((npPerm draw (seedOf entropy set_seed) (tracesReshaped ds).length).getD i 0) []
    ∧ (npShuffle draw (seedOf entropy set_seed) (stotReshaped ds)).getD i []
        = (stotReshaped ds).getD
            ((npPerm draw (seedOf entropy set_seed) (tracesReshaped ds).length).getD i 0) [] := by
  have hLens := (lensOK_eq_true_iff ds).mp hlen
  have ht : (tracesReshaped ds).length = (concatTraces ds).length := List.length_map ..
  have hd : (distReshaped ds).length = (tracesReshaped ds).length := by
    rw [ht]; exact (List.length_map ..).trans hLens.2.1
  have hinfo : (infoReshaped ds).length = (tracesReshaped ds).length := by
    rw [ht]; exact (List.length_map ..).trans hLens.2.2.1
  have haz : (azReshaped ds).length = (tracesReshaped ds).length := by
    rw [ht]; exact (List.length_map ..).trans hLens.2.2.2.1
  have hst : (stotReshaped ds).length = (tracesReshaped ds).length := by
    rw [ht]; exact (List.length_map ..).trans hLens.2.2.2.2
  have hlab : (concatLabels ds).length = (tracesReshaped ds).length := by
    rw [ht]; exact hLens.1
  refine ⟨?_, ?_, npPerm_perm_range .., ?_, ?_, ?_, ?_, ?_, ?_⟩
  · unfold merge_and_shuffle
    rw [if_neg (by simp [hne]), if_pos (List.all_eq_true.mpr hrank), if_pos hlen]
  · refine npPerm_mem_lt (getD_mem_of_lt _ i 0 ?_)
    rw [npPerm_length]; exact hi
  · exact shuffle_row_origin draw _ _ _ i [] rfl hi
  · exact shuffle_row_origin draw _ _ _ i 0 hlab hi
  · exact shuffle_row_origin draw _ _ _ i [] hd hi
  · exact shuffle_row_origin draw _ _ _ i [] hinfo hi
  · exact shuffle_row_origin draw _ _ _ i [] haz hi
  · exact shuffle_row_origin draw _ _ _ i [] hst hi

/-- A trivial concrete generator for witnesses. -/
def draw0 : Nat → Nat → Nat → Nat := fun _ _ _ => 0

/-- A concrete well-formed processed batch: two events, two stations,
150-bin traces. -/
noncomputable def wBatch : ProcessedData where
  lgE_MC := [0, 0]
  lgE := [0, 0]
  Dist := [[0, 0], [0, 0]]
  traces_cum :=
    [[List.replicate 150 (FR.fin 0), List.replicate 150 (FR.fin 0)],
     [List.replicate 150 (FR.fin 0), List.replicate 150 (FR.fin 0)]]
  ID := [0, 0]
  t0 := [0, 0]
  theta := [0, 0]
  lg_Stot := NpSq.r2 [[0, 0], [0, 0]]
  lg_S1000 := [0, 0]
  azimuth := [[0, 0], [0, 0]]
  Nstat := [0, 0]
  label := 1

theorem C1_witness :
    ([wBatch] : List ProcessedData) ≠ []
    ∧ (∀ d ∈ [wBatch], lgStotRank2 d.lg_Stot = true)
    ∧ lensOK [wBatch] = true
    ∧ 0 < (tracesReshaped [wBatch]).length
    ∧ merge_and_shuffle draw0 0 [wBatch] 55
        = .ok (mergeContainer draw0 (seedOf 0 55) [wBatch]) := by
  refine ⟨by simp, ?_, ?_, ?_, ?_⟩
  · intro d hd
    rw [List.mem_singleton] at hd
    subst hd
    rfl
  · rfl
  · decide
  · exact (C1_merge_single_permutation draw0 0 55 [wBatch] 0 (by simp)
      (by intro d hd; rw [List.mem_singleton] at hd; subst hd; rfl) rfl
      (by decide)).1

/-- C5: for every seed ≥ 0, two invocations of the merge/shuffle step with
identical input batch lists and the same seed produce identical results —
the ambient entropy used only for negative seeds is irrelevant, so the
permutation and all six output arrays are bit-identical across runs. -/
theorem C5_two_run_determinism (draw : Nat → Nat → Nat → Nat)
    (e1 e2 : Nat) (ds : List ProcessedData) (s : Int) (hs : 0 ≤ s) :
    merge_and_shuffle draw e1 ds s = merge_and_shuffle draw e2 ds s := by
  have hseed : seedOf e1 s = seedOf e2 s := by
    unfold seedOf
    rw [if_neg (by omega), if_neg (by omega)]
  unfold merge_and_shuffle
  rw [hseed]

theorem C5_witness :
    (0 : Int) ≤ 55
    ∧ merge_and_shuffle draw0 0 [wBatch] 55 = merge_and_shuffle draw0 1 [wBatch] 55 :=
  ⟨by decide, C5_two_run_determinism draw0 0 1 [wBatch] 55 (by decide)⟩

/-- C6: on batch lists whose squeezed `lg_Stot` arrays keep rank 2 (so the
merge's reshapes do not abort first), the merge/shuffle step fails with the
`LengthMismatch` assertion exactly when the six concatenated arrays do not
all share the same leading length, and never produces that error
otherwise. -/
theorem C6_length_mismatch_iff (draw : Nat → Nat → Nat → Nat)
    (entropy : Nat) (ds : List ProcessedData) (s : Int)
    (hne : ds ≠ [])
    (hrank : ∀ d ∈ ds, lgStotRank2 d.lg_Stot = true) :
    merge_and_shuffle draw entropy ds s = .error .LengthMismatch
      ↔ ¬((concatLabels ds).length = (concatTraces ds).length
          ∧ (concatDist ds).length = (concatTraces ds).length
          ∧ (concatInfo ds).length = (concatTraces ds).length
          ∧ (concatAzimuth ds).length = (concatTraces ds).length
          ∧ (concatStot ds).length = (concatTraces ds).length) := by
  unfold merge_and_shuffle
  rw [if_neg (by simp [hne]), if_pos (List.all_eq_true.mpr hrank)]
  by_cases hl : lensOK ds = true
  · rw [if_pos hl]
    exact iff_of_false (by simp) (not_not_intro ((lensOK_eq_true_iff ds).mp hl))
  · rw [if_neg hl]
    exact iff_of_true rfl (fun hc => hl ((lensOK_eq_true_iff ds).mpr hc))

/-- A batch like `wBatch` but with a one-event energy column, so the labels
array disagrees with the traces array on event count. -/
noncomputable def wBatchBad : ProcessedData :=
  { wBatch with lgE_MC := [0] }

theorem C6_witness :
    ([wBatchBad] : List ProcessedData) ≠ []
    ∧ (∀ d ∈ [wBatchBad], lgStotRank2 d.lg_Stot = true)
    ∧ (merge_and_shuffle draw0 0 [wBatchBad] 55 = .error .LengthMismatch
        ↔ ¬((concatLabels [wBatchBad]).length = (concatTraces [wBatchBad]).length
            ∧ (concatDist [wBatchBad]).length = (concatTraces [wBatchBad]).length
            ∧ (concatInfo [wBatchBad]).length = (concatTraces [wBatchBad]).length
            ∧ (concatAzimuth [wBatchBad]).length = (concatTraces [wBatchBad]).length
            ∧ (concatStot [wBatchBad]).length = (concatTraces [wBatchBad]).length)) := by
  refine ⟨by simp, ?_, ?_⟩
  · intro d hd
    rw [List.mem_singleton] at hd
    subst hd
    rfl
  · exact C6_length_mismatch_iff draw0 0 [wBatchBad] 55 (by simp)
      (by intro d hd; rw [List.mem_singleton] at hd; subst hd; rfl)

/-! ### Lemmas about the trace integrator -/

theorem cumsum_length (l : List ℝ) : (cumsum l).length = l.length := by
  induction l with
  | nil => rfl
  | cons x xs ih => rw [cumsum, List.length_cons, List.length_map, ih, List.length_cons]

theorem cumsum_getD (l : List ℝ) (k : Nat) (hk : k < l.length) :
    (cumsum l).getD k 0 = (l.take (k + 1)).sum := by
  induction l generalizing k with
  | nil => simp at hk
  | cons x xs ih =>
      cases k with
      | zero => simp [cumsum]
      | succ m =>
          have hm : m < xs.length := by
            rw [List.length_cons] at hk
            omega
          have hm2 : m < (cumsum xs).length := by rw [cumsum_length]; exact hm
          rw [cumsum, List.getD_cons_succ,
            getD_map_of_lt (fun y => x + y) (cumsum xs) m 0 0 hm2, ih m hm,
            List.take_succ_cons, List.sum_cons]

theorem mem_cumsum_le_sum {l : List ℝ} (hpos : ∀ x ∈ l, 0 ≤ x) :
    ∀ y ∈ cumsum l, y ≤ l.sum := by
  induction l with
  | nil => simp [cumsum]
  | cons x xs ih =>
      intro y hy
      rw [cumsum] at hy
      have hxs : ∀ z ∈ xs, 0 ≤ z := fun z hz => hpos z (List.mem_cons_of_mem _ hz)
      rcases List.mem_cons.mp hy with rfl | hy'
      · have h0 : 0 ≤ xs.sum := List.sum_nonneg hxs
        rw [List.sum_cons]
        linarith
      · rcases List.mem_map.mp hy' with ⟨z, hz, rfl⟩
        have hzle := ih hxs z hz
        rw [List.sum_cons]
        linarith

theorem sum_mem_cumsum {l : List ℝ} (hne : l ≠ []) : l.sum ∈ cumsum l := by
  induction l with
  | nil => cases hne rfl
  | cons x xs ih =>
      rw [cumsum]
      by_cases h : xs = []
      · subst h
        simp [cumsum]
      · rw [List.sum_cons]
        exact List.mem_cons_of_mem _ (List.mem_map.mpr ⟨xs.sum, ih h, rfl⟩)

theorem le_foldl_max (xs : List ℝ) (b : ℝ) : b ≤ xs.foldl max b := by
  induction xs generalizing b with
  | nil => exact le_refl b
  | cons x xs ih => exact le_trans (le_max_left b x) (ih (max b x))

theorem mem_le_foldl_max (xs : List ℝ) (a y : ℝ) (hy : y ∈ xs) :
    y ≤ xs.foldl max a := by
  induction xs generalizing a with
  | nil => simp at hy
  | cons x xs ih =>
      rcases List.mem_cons.mp hy with rfl | hy'
      · exact le_trans (le_max_right a y) (le_foldl_max xs (max a y))
      · exact ih (max a x) hy'

theorem foldl_max_mem (xs : List ℝ) (a : ℝ) :
    xs.foldl max a = a ∨ xs.foldl max a ∈ xs := by
  induction xs generalizing a with
  | nil => exact Or.inl rfl
  | cons x xs ih =>
      rcases ih (max a x) with h | h
      · rcases max_choice a x with hax | hax
        · exact Or.inl (by rw [List.foldl_cons, h, hax])
        · exact Or.inr (by rw [List.foldl_cons, h, hax]; exact List.mem_cons_self ..)
      · exact Or.inr (List.mem_cons_of_mem _ h)

theorem listMax_mem {l : List ℝ} (hne : l ≠ []) : listMax l ∈ l := by
  match l, hne with
  | x :: xs, _ =>
      rcases foldl_max_mem xs x with h | h
      · rw [listMax, h]
        exact List.mem_cons_self ..
      · exact List.mem_cons_of_mem _ h

theorem le_listMax {l : List ℝ} (y : ℝ) (hy : y ∈ l) : y ≤ listMax l := by
  match l, hy with
  | x :: xs, hy =>
      rcases List.mem_cons.mp hy with rfl | hy'
      · exact le_foldl_max xs y
      · exact mem_le_foldl_max xs x y hy'

/-- For a non-negative waveform the maximum of the cumulative sum is the
total sum (the last cumulative value). -/
theorem listMax_cumsum_eq_sum {l : List ℝ} (hne : l ≠ [])
    (hpos : ∀ x ∈ l, 0 ≤ x) : listMax (cumsum l) = l.sum := by
  have h1 : cumsum l ≠ [] := by
    match l, hne with
    | x :: xs, _ => simp [cumsum]
  exact le_antisymm (mem_cumsum_le_sum hpos _ (listMax_mem h1))
    (le_listMax _ (sum_mem_cumsum hne))

/-- C3: for every station waveform of at least 150 time bins whose
truncation to the first 150 bins is non-negative and not all-zero, the
trace integrator produces a 150-bin normalized cumulative trace whose final
(150th) value is exactly 1: the cumulative sum is divided by its own
maximum, which for such waveforms is the final cumulative value. -/
theorem C3_trace_norm_last_bin_one (stat : List ℝ) (hlen : 150 ≤ stat.length)
    (hpos : ∀ x ∈ stat.take 150, 0 ≤ x) (hnz : ∃ x ∈ stat.take 150, x ≠ 0) :
    (normalizeStation stat).length = 150
    ∧ (normalizeStation stat).getD 149 (FR.fin 0) = FR.fin 1 := by
  have htlen : (stat.take 150).length = 150 := by
    rw [List.length_take]
    omega
  have htne : stat.take 150 ≠ [] := by
    intro h
    rw [h] at htlen
    simp at htlen
  have hsum_pos : 0 < (stat.take 150).sum := by
    obtain ⟨x, hx, hxne⟩ := hnz
    have hxpos : 0 < x := lt_of_le_of_ne (hpos x hx) (Ne.symm hxne)
    exact lt_of_lt_of_le hxpos (List.single_le_sum hpos x hx)
  have hmax : listMax (cumsum (stat.take 150)) = (stat.take 150).sum :=
    listMax_cumsum_eq_sum htne hpos
  have hclen : (cumsum (stat.take 150)).length = 150 := by
    rw [cumsum_length, htlen]
  constructor
  · simp only [normalizeStation, List.length_map]
    exact hclen
  · simp only [normalizeStation]
    rw [getD_map_of_lt _ _ 149 (FR.fin 0) 0 (by rw [hclen]; norm_num),
      hmax, cumsum_getD _ 149 (by rw [htlen]; norm_num),
      List.take_of_length_le (le_of_eq htlen), fdiv,
      if_neg (ne_of_gt hsum_pos), div_self (ne_of_gt hsum_pos)]

theorem C3_witness :
    150 ≤ (List.replicate 150 (1 : ℝ)).length
    ∧ (∀ x ∈ (List.replicate 150 (1 : ℝ)).take 150, 0 ≤ x)
    ∧ (∃ x ∈ (List.replicate 150 (1 : ℝ)).take 150, x ≠ 0)
    ∧ (normalizeStation (List.replicate 150 (1 : ℝ))).length = 150
    ∧ (normalizeStation (List.replicate 150 (1 : ℝ))).getD 149 (FR.fin 0) = FR.fin 1 := by
  have h1 : 150 ≤ (List.replicate 150 (1 : ℝ)).length := by simp
  have h2 : ∀ x ∈ (List.replicate 150 (1 : ℝ)).take 150, 0 ≤ x := by
    intro x hx
    rw [List.eq_of_mem_replicate (List.mem_of_mem_take hx)]
    norm_num
  have h3 : ∃ x ∈ (List.replicate 150 (1 : ℝ)).take 150, x ≠ 0 := by
    refine ⟨1, ?_, by norm_num⟩
    rw [List.take_of_length_le (by simp)]
    exact List.mem_replicate.mpr ⟨by norm_num, rfl⟩
  obtain ⟨hc1, hc2⟩ := C3_trace_norm_last_bin_one (List.replicate 150 (1 : ℝ)) h1 h2 h3
  exact ⟨h1, h2, h3, hc1, hc2⟩

/-! ### The all-zero waveform (claim C2) -/

theorem cumsum_all_zero {l : List ℝ} (h : ∀ x ∈ l, x = 0) :
    ∀ y ∈ cumsum l, y = 0 := by
  induction l with
  | nil => simp [cumsum]
  | cons x xs ih =>
      intro y hy
      rw [cumsum] at hy
      have hx0 : x = 0 := h x (List.mem_cons_self ..)
      rcases List.mem_cons.mp hy with rfl | hy'
      · exact hx0
      · rcases List.mem_map.mp hy' with ⟨z, hz, rfl⟩
        rw [ih (fun w hw => h w (List.mem_cons_of_mem _ hw)) z hz, hx0, add_zero]

theorem listMax_all_zero {l : List ℝ} (h : ∀ y ∈ l, y = 0) : listMax l = 0 := by
  by_cases hne : l = []
  · rw [hne]; rfl
  · exact h _ (listMax_mem hne)

/-- C2 (amended): the reference code does not guard the all-zero waveform;
for every station waveform whose first 150 bins are all zero, every entry of
the normalized cumulative trace is the NaN produced by the division `0/0`. -/
theorem C2_allzero_waveform_not_handled (stat : List ℝ)
    (hz : ∀ x ∈ stat.take 150, x = 0) :
    ∀ y ∈ normalizeStation stat, y = FR.nan := by
  intro y hy
  simp only [normalizeStation] at hy
  obtain ⟨z, hz', rfl⟩ := List.mem_map.mp hy
  rw [cumsum_all_zero hz z hz', listMax_all_zero (cumsum_all_zero hz), fdiv]
  norm_num

theorem C2_witness :
    (∀ x ∈ (List.replicate 150 (0 : ℝ)).take 150, x = 0)
    ∧ (∀ y ∈ normalizeStation (List.replicate 150 (0 : ℝ)), y = FR.nan) := by
  have h1 : ∀ x ∈ (List.replicate 150 (0 : ℝ)).take 150, x = 0 := by
    intro x hx
    exact List.eq_of_mem_replicate (List.mem_of_mem_take hx)
  exact ⟨h1, C2_allzero_waveform_not_handled (List.replicate 150 (0 : ℝ)) h1⟩

theorem cumsum_replicate_zero (n : Nat) :
    cumsum (List.replicate n (0 : ℝ)) = List.replicate n 0 := by
  induction n with
  | zero => rfl
  | succ m ih =>
      rw [List.replicate_succ, cumsum, ih]
      simp

/-- A concrete one-event, one-station batch whose waveform is all-zero. -/
noncomputable def zeroBatch : TreeData where
  Ene_MC := [1]
  Ene := [1]
  Dist := [[1500]]
  traces := [[List.replicate 150 0]]
  ID := [0]
  t0 := [0]
  theta := [0]
  Stot := [[0]]
  S1000 := [1]
  azimuth := [[0]]
  Nstat := [1]

/-- C2 (counterexample): processing a batch containing an all-zero waveform
is not handled — `process_data` succeeds and the first entry of the
normalized trace output for that station is NaN, refuting the claim that no
output trace entry is NaN. -/
theorem C2_counterexample :
    (process_data zeroBatch false 1 100).map
        (fun p => ((p.traces_cum.getD 0 []).getD 0 []).getD 0 (FR.fin 0))
      = .ok FR.nan := by
  have hns : normalizeStation (List.replicate 150 (0 : ℝ))
      = List.replicate 150 FR.nan := by
    simp only [normalizeStation]
    rw [List.take_of_length_le (by simp), cumsum_replicate_zero,
      listMax_all_zero (fun y hy => List.eq_of_mem_replicate hy),
      List.map_replicate, fdiv]
    norm_num
  simp only [process_data, zeroBatch]
  norm_num [rank3, hns, Except.map, List.getElem?_replicate]

/-- C7: for every non-negative signal value `x` and positive normalization
constant `Snorm` (default 100), the rescaling returns
`log10(x + 1) / log10(Snorm + 1)`; in particular it maps `0` to `0` and is
strictly monotonically increasing in `x`. -/
theorem C7_rescale_formula_monotone (S x y : ℝ) (hS : 0 < S) (hx : 0 ≤ x)
    (hxy : x < y) :
    rescaleStotVal 0 S = 0
    ∧ rescaleStotVal x S = Real.logb 10 (x + 1) / Real.logb 10 (S + 1)
    ∧ rescale_Stot [[x]] S = [[rescaleStotVal x S]]
    ∧ rescaleStotVal x S < rescaleStotVal y S := by
  have h10 : (1 : ℝ) < 10 := by norm_num
  have hden : 0 < Real.logb 10 (S + 1) := Real.logb_pos h10 (by linarith)
  refine ⟨?_, rfl, rfl, ?_⟩
  · simp [rescaleStotVal]
  · unfold rescaleStotVal
    exact (div_lt_div_iff_of_pos_right hden).mpr
      (Real.logb_lt_logb h10 (by linarith) (by linarith))

theorem C7_witness :
    (0 : ℝ) < 100 ∧ (0 : ℝ) ≤ 0 ∧ (0 : ℝ) < 1
    ∧ (rescaleStotVal 0 100 = 0
       ∧ rescaleStotVal 0 100 = Real.logb 10 (0 + 1) / Real.logb 10 (100 + 1)
       ∧ rescale_Stot [[0]] 100 = [[rescaleStotVal 0 100]]
       ∧ rescaleStotVal 0 100 < rescaleStotVal 1 100) :=
  ⟨by norm_num, le_refl 0, by norm_num,
    C7_rescale_formula_monotone 100 0 1 (by norm_num) (le_refl 0) (by norm_num)⟩

/-! ### Lemmas about the zenith-angle filter (claim C4) -/

theorem length_filter_range_getD (l : List ℝ) (p : ℝ → Bool) :
    ((List.range l.length).filter (fun i => p (l.getD i 0))).length
      = l.countP p := by
  induction l with
  | nil => rfl
  | cons x xs ih =>
      have hcomp : ((fun i => p ((x :: xs).getD i 0)) ∘ Nat.succ)
          = (fun i => p (xs.getD i 0)) := by
        funext i
        rfl
      rw [List.length_cons, List.range_succ_eq_map, List.filter_cons,
        List.filter_map, hcomp]
      cases hpx : p x
      · simp only [List.getD_eq_getElem?_getD] at ih
        simp [List.countP_cons, hpx, ih]
      · simp only [List.getD_eq_getElem?_getD] at ih
        simp [List.countP_cons, hpx, ih]

/-- The invariant of §3: all columns of a raw batch have the same row
count (the traces' leading dimension), as the reader materializes them. -/
def colsWF (t : TreeData) : Prop :=
  t.Ene_MC.length = t.theta.length
  ∧ t.Ene.length = t.theta.length
  ∧ t.Dist.length = t.theta.length
  ∧ t.traces.length = t.theta.length
  ∧ t.ID.length = t.theta.length
  ∧ t.t0.length = t.theta.length
  ∧ t.Stot.length = t.theta.length
  ∧ t.S1000.length = t.theta.length
  ∧ t.azimuth.length = t.theta.length
  ∧ t.Nstat.length = t.theta.length

/-- The transformer's output row count: the input row count without the
angular filter, else the number of events with `theta < np.radians(60)`. -/
noncomputable def outLen (t : TreeData) (sel : Bool) : Nat :=
  if sel then t.theta.countP (fun v => decide (v < radians60)) else t.theta.length

theorem selIndices_length (t : TreeData) :
    (selIndices t).length = t.theta.countP (fun v => decide (v < radians60)) := by
  unfold selIndices
  exact length_filter_range_getD t.theta (fun v => decide (v < radians60))

theorem selIndices_mem_lt {t : TreeData} {i : Nat} (hi : i ∈ selIndices t) :
    i < t.theta.length :=
  List.mem_range.mp (List.mem_of_mem_filter hi)

/-- The leading-axis length of the squeezed signal array equals the event
count whenever that count is not 1 (the one size at which `np.squeeze`
collapses the event axis). -/
theorem stotRows_npSqueeze_length (a : List (List ℝ)) (hn : a.length ≠ 1) :
    (stotRows (npSqueeze a)).length = a.length := by
  match a, hn with
  | [], _ => rfl
  | [r], hn => exact absurd rfl hn
  | r1 :: r2 :: rest, _ =>
      simp only [npSqueeze]
      by_cases hall : (r1 :: r2 :: rest).all (fun q => decide (q.length = 1)) = true
      · rw [if_pos hall]
        simp [stotRows]
      · rw [if_neg hall]
        rfl

/-- C4 (amended): for every well-formed input batch on which the trace
slice is defined, the transformer's output row count equals the input row
count when the angular filter flag is off, and the number of input rows
with `zenith < 60°` (converted to radians) when it is on, for every output
column — with the one exception forced by the counterexample: the `lg_Stot`
column's leading length equals the event count only when the (filtered)
event count is not 1, because `np.squeeze` collapses the event axis of a
one-event batch.  The filtering step indexes every column by the same index
list `selIndices`, preserving per-event correspondence across columns. -/
theorem C4_filter_row_counts (t : TreeData) (sel : Bool) (lbl : ℤ) (S : ℝ)
    (hwf : colsWF t)
    (hrk : rank3 t.traces = true)
    (hstat : t.traces.all (fun ev => ev.all (fun s => !(s.take 150).isEmpty)) = true) :
    ((process_data t sel lbl S).map (fun p => p.lgE_MC.length) = .ok (outLen t sel)
     ∧ (process_data t sel lbl S).map (fun p => p.lgE.length) = .ok (outLen t sel)
     ∧ (process_data t sel lbl S).map (fun p => p.Dist.length) = .ok (outLen t sel)
     ∧ (process_data t sel lbl S).map (fun p => p.traces_cum.length) = .ok (outLen t sel)
     ∧ (process_data t sel lbl S).map (fun p => p.ID.length) = .ok (outLen t sel)
     ∧ (process_data t sel lbl S).map (fun p => p.t0.length) = .ok (outLen t sel)
     ∧ (process_data t sel lbl S).map (fun p => p.theta.length) = .ok (outLen t sel)
     ∧ (outLen t sel ≠ 1 →
        (process_data t sel lbl S).map (fun p => (stotRows p.lg_Stot).length)
          = .ok (outLen t sel))
     ∧ (process_data t sel lbl S).map (fun p => p.lg_S1000.length) = .ok (outLen t sel)
     ∧ (process_data t sel lbl S).map (fun p => p.azimuth.length) = .ok (outLen t sel)
     ∧ (process_data t sel lbl S).map (fun p => p.Nstat.length) = .ok (outLen t sel))
    ∧ (∀ k, k < (selIndices t).length →
        ((theta_filtered t).Ene_MC.getD k 0 = t.Ene_MC.getD ((selIndices t).getD k 0) 0
         ∧ (theta_filtered t).Ene.getD k 0 = t.Ene.getD ((selIndices t).getD k 0) 0
         ∧ (theta_filtered t).Dist.getD k [] = t.Dist.getD ((selIndices t).getD k 0) []
         ∧ (theta_filtered t).traces.getD k [] = t.traces.getD ((selIndices t).getD k 0) []
         ∧ (theta_filtered t).ID.getD k 0 = t.ID.getD ((selIndices t).getD k 0) 0
         ∧ (theta_filtered t).t0.getD k 0 = t.t0.getD ((selIndices t).getD k 0) 0
         ∧ (theta_filtered t).theta.getD k 0 = t.theta.getD ((selIndices t).getD k 0) 0
         ∧ (theta_filtered t).Stot.getD k [] = t.Stot.getD ((selIndices t).getD k 0) []
         ∧ (theta_filtered t).S1000.getD k 0 = t.S1000.getD ((selIndices t).getD k 0) 0
         ∧ (theta_filtered t).azimuth.getD k [] = t.azimuth.getD ((selIndices t).getD k 0) []
         ∧ (theta_filtered t).Nstat.getD k 0 = t.Nstat.getD ((selIndices t).getD k 0) 0)) := by
  obtain ⟨h1, h2, h3, h4, h5, h6, h7, h8, h9, h10⟩ := hwf
  have hstatTd : (if sel then theta_filtered t else t).traces.all
      (fun ev => ev.all (fun s => !(s.take 150).isEmpty)) = true := by
    cases sel with
    | false => exact hstat
    | true =>
        rw [List.all_eq_true] at hstat ⊢
        intro ev hev
        simp only [theta_filtered] at hev
        obtain ⟨i, hi, rfl⟩ := List.mem_map.mp hev
        have hilt : i < t.traces.length := by
          rw [h4]
          exact selIndices_mem_lt hi
        exact hstat _ (getD_mem_of_lt _ i [] hilt)
  have hmain : ∀ (td : TreeData), td = (if sel then theta_filtered t else t) →
      process_data t sel lbl S = .ok
        { lgE_MC := td.Ene_MC.map (Real.logb 10)
          lgE := td.Ene.map (Real.logb 10)
          Dist := (td.Dist.map (fun r => r.map (fun v => v / 1500))).map
            (fun r => r.map (fun v => v - listMean ((td.Dist.map (fun r => r.map (fun v => v / 1500))).flatten)))
          traces_cum := td.traces.map (fun ev => ev.map normalizeStation)
          ID := td.ID
          t0 := td.t0
          theta := td.theta.map degreesVal
          lg_Stot := npSqueeze (rescale_Stot td.Stot S)
          lg_S1000 := td.S1000.map (Real.logb 10)
          azimuth := td.azimuth.map (fun r => r.map degreesVal)
          Nstat := td.Nstat.map (Real.logb 10)
          label := lbl } := by
    intro td htd
    subst htd
    simp only [process_data]
    rw [if_pos hrk, if_pos hstatTd]
  have hok := hmain _ rfl
  have hlen : ∀ (f : TreeData → Nat),
      (f (theta_filtered t) = (selIndices t).length) → (f t = t.theta.length) →
      f (if sel then theta_filtered t else t) = outLen t sel := by
    intro f hf ht
    cases sel with
    | false => simpa [outLen] using ht
    | true => simpa [outLen, ← selIndices_length] using hf
  constructor
  · refine ⟨?_, ?_, ?_, ?_, ?_, ?_, ?_, ?_, ?_, ?_, ?_⟩
    · rw [hok]
      simp only [Except.map]
      exact congrArg Except.ok (hlen (fun td => (td.Ene_MC.map (Real.logb 10)).length)
        (by simp [theta_filtered]) (by simp [h1]))
    · rw [hok]
      simp only [Except.map]
      exact congrArg Except.ok (hlen (fun td => (td.Ene.map (Real.logb 10)).length)
        (by simp [theta_filtered]) (by simp [h2]))
    · rw [hok]
      simp only [Except.map]
      exact congrArg Except.ok (hlen (fun td =>
        ((td.Dist.map (fun r => r.map (fun v => v / 1500))).map
          (fun r => r.map (fun v => v - listMean ((td.Dist.map (fun r => r.map (fun v => v / 1500))).flatten)))).length)
        (by simp [theta_filtered]) (by simp [h3]))
    · rw [hok]
      simp only [Except.map]
      exact congrArg Except.ok
        (hlen (fun td => (td.traces.map (fun ev => ev.map normalizeStation)).length)
          (by simp [theta_filtered]) (by simp [h4]))
    · rw [hok]
      simp only [Except.map]
      exact congrArg Except.ok
        (hlen (fun td => td.ID.length) (by simp [theta_filtered]) (by simp [h5]))
    · rw [hok]
      simp only [Except.map]
      exact congrArg Except.ok
        (hlen (fun td => td.t0.length) (by simp [theta_filtered]) (by simp [h6]))
    · rw [hok]
      simp only [Except.map]
      exact congrArg Except.ok (hlen (fun td => (td.theta.map degreesVal).length)
        (by simp [theta_filtered]) (by simp))
    · intro hn1
      rw [hok]
      simp only [Except.map]
      refine congrArg Except.ok ?_
      have hslen : (rescale_Stot (if sel then theta_filtered t else t).Stot S).length
          = outLen t sel := by
        have hS := hlen (fun td => td.Stot.length) (by simp [theta_filtered]) h7
        simpa [rescale_Stot] using hS
      rw [stotRows_npSqueeze_length _ (by rw [hslen]; exact hn1), hslen]
    · rw [hok]
      simp only [Except.map]
      exact congrArg Except.ok (hlen (fun td => (td.S1000.map (Real.logb 10)).length)
        (by simp [theta_filtered]) (by simp [h8]))
    · rw [hok]
      simp only [Except.map]
      exact congrArg Except.ok
        (hlen (fun td => (td.azimuth.map (fun r => r.map degreesVal)).length)
          (by simp [theta_filtered]) (by simp [h9]))
    · rw [hok]
      simp only [Except.map]
      exact congrArg Except.ok (hlen (fun td => (td.Nstat.map (Real.logb 10)).length)
        (by simp [theta_filtered]) (by simp [h10]))
  · intro k hk
    simp only [theta_filtered]
    exact ⟨getD_map_of_lt _ _ k 0 0 hk, getD_map_of_lt _ _ k 0 0 hk,
      getD_map_of_lt _ _ k [] 0 hk, getD_map_of_lt _ _ k [] 0 hk,
      getD_map_of_lt _ _ k 0 0 hk, getD_map_of_lt _ _ k 0 0 hk,
      getD_map_of_lt _ _ k 0 0 hk, getD_map_of_lt _ _ k [] 0 hk,
      getD_map_of_lt _ _ k 0 0 hk, getD_map_of_lt _ _ k [] 0 hk,
      getD_map_of_lt _ _ k 0 0 hk⟩

theorem C4_witness :
    colsWF zeroBatch
    ∧ rank3 zeroBatch.traces = true
    ∧ zeroBatch.traces.all (fun ev => ev.all (fun s => !(s.take 150).isEmpty)) = true
    ∧ (process_data zeroBatch false 1 100).map (fun p => p.lgE_MC.length)
        = .ok (outLen zeroBatch false) := by
  have hwf : colsWF zeroBatch := by
    refine ⟨?_, ?_, ?_, ?_, ?_, ?_, ?_, ?_, ?_, ?_⟩ <;> rfl
  have hrk : rank3 zeroBatch.traces = true := rfl
  have hstat : zeroBatch.traces.all
      (fun ev => ev.all (fun s => !(s.take 150).isEmpty)) = true := rfl
  exact ⟨hwf, hrk, hstat,
    (C4_filter_row_counts zeroBatch false 1 100 hwf hrk hstat).1.1⟩

/-- A concrete one-event, two-station batch. -/
noncomputable def oneEvBatch : TreeData where
  Ene_MC := [1]
  Ene := [1]
  Dist := [[1500, 1500]]
  traces := [[List.replicate 150 1, List.replicate 150 1]]
  ID := [0]
  t0 := [0]
  theta := [0]
  Stot := [[0, 0]]
  S1000 := [1]
  azimuth := [[0, 0]]
  Nstat := [1]

/-- C4 (counterexample): on a one-event, two-station batch with no angular
filter, the transformer's `lg_Stot` output is not an event-indexed column
of length 1: `np.squeeze` collapses the unit event axis, leaving the 1-D
station vector of length 2, so the claim that every column's output row
count equals the input row count fails at this concrete input. -/
theorem C4_counterexample :
    oneEvBatch.theta.length = 1
    ∧ outLen oneEvBatch false = 1
    ∧ (process_data oneEvBatch false 1 100).map (fun p => p.lg_Stot)
        = .ok (NpSq.r1 [rescaleStotVal 0 100, rescaleStotVal 0 100])
    ∧ (process_data oneEvBatch false 1 100).map (fun p => (stotRows p.lg_Stot).length)
        = .ok 2 := by
  refine ⟨rfl, rfl, ?_, ?_⟩
  · simp only [process_data, oneEvBatch]
    norm_num [rank3, rescale_Stot, npSqueeze, Except.map]
  · simp only [process_data, oneEvBatch]
    norm_num [rank3, rescale_Stot, npSqueeze, stotRows, Except.map]

/-! ### Shapes of the written dataset (claim C8) -/

/-- Shape well-formedness of one processed batch: all columns share the
batch's event count, station-indexed rows have `st` entries, traces have
150 bins, and the batch avoids the squeeze-degenerate sizes (at least two
events and two stations) on which the source merge aborts for independent
numpy shape reasons. -/
def batchDims (d : ProcessedData) (st : Nat) : Prop :=
  d.lgE_MC.length = d.traces_cum.length
  ∧ d.Dist.length = d.traces_cum.length
  ∧ d.azimuth.length = d.traces_cum.length
  ∧ (stotRows d.lg_Stot).length = d.traces_cum.length
  ∧ d.theta.length = d.traces_cum.length
  ∧ d.lg_S1000.length = d.traces_cum.length
  ∧ d.Nstat.length = d.traces_cum.length
  ∧ (∀ ev ∈ d.traces_cum, ev.length = st ∧ ∀ s ∈ ev, s.length = 150)
  ∧ (∀ r ∈ d.Dist, r.length = st)
  ∧ (∀ r ∈ d.azimuth, r.length = st)
  ∧ (∀ r ∈ stotRows d.lg_Stot, r.length = st)
  ∧ 2 ≤ d.traces_cum.length

/-- The total number of merged events: the sum of the batch sizes. -/
def totalEvents (ds : List ProcessedData) : Nat :=
  (ds.map (fun d => d.traces_cum.length)).sum

/-- C8: the dataset writer serializes exactly six named arrays under the
keys `traces`, `dist`, `Stot`, `azimuthSP`, `info_event`, `labels` (in the
order of the `savez` call), with shapes `[N, st, 150, 1]`, `[N, st, 1]`,
`[N, st, 1]`, `[N, st, 1]`, `[N, 3, 1]` and `[N]` where `N` is the sum of
the (filtered) batch sizes, and the verification step reopens the container
and finds all six keys present. -/
theorem C8_writer_keys_and_shapes (draw : Nat → Nat → Nat → Nat)
    (entropy : Nat) (s : Int) (ds : List ProcessedData) (st : Nat)
    (hne : ds ≠ []) (hst : 2 ≤ st)
    (hdims : ∀ d ∈ ds, batchDims d st) :
    merge_and_shuffle draw entropy ds s
        = .ok (mergeContainer draw (seedOf entropy s) ds)
    ∧ (mergeContainer draw (seedOf entropy s) ds).map Prod.fst
        = ["traces", "dist", "Stot", "azimuthSP", "info_event", "labels"]
    ∧ (load_npz_file (mergeContainer draw (seedOf entropy s) ds)).isSome = true
    ∧ (npShuffle draw (seedOf entropy s) (tracesReshaped ds)).length = totalEvents ds
    ∧ (∀ ev ∈ npShuffle draw (seedOf entropy s) (tracesReshaped ds),
        ev.length = st ∧ ∀ stt ∈ ev, stt.length = 150 ∧ ∀ x ∈ stt, x.length = 1)
    ∧ (npShuffle draw (seedOf entropy s) (distReshaped ds)).length = totalEvents ds
    ∧ (∀ r ∈ npShuffle draw (seedOf entropy s) (distReshaped ds),
        r.length = st ∧ ∀ x ∈ r, x.length = 1)
    ∧ (npShuffle draw (seedOf entropy s) (stotReshaped ds)).length = totalEvents ds
    ∧ (∀ r ∈ npShuffle draw (seedOf entropy s) (stotReshaped ds),
        r.length = st ∧ ∀ x ∈ r, x.length = 1)
    ∧ (npShuffle draw (seedOf entropy s) (azReshaped ds)).length = totalEvents ds
    ∧ (∀ r ∈ npShuffle draw (seedOf entropy s) (azReshaped ds),
        r.length = st ∧ ∀ x ∈ r, x.length = 1)
    ∧ (npShuffle draw (seedOf entropy s) (infoReshaped ds)).length = totalEvents ds
    ∧ (∀ r ∈ npShuffle draw (seedOf entropy s) (infoReshaped ds),
        r.length = 3 ∧ ∀ x ∈ r, x.length = 1)
    ∧ (npShuffle draw (seedOf entropy s) (concatLabels ds)).length = totalEvents ds := by
  have hTlen : (concatTraces ds).length = totalEvents ds := by
    unfold concatTraces totalEvents
    rw [List.length_flatten, List.map_map]
    rfl
  have hLabLen : (concatLabels ds).length = totalEvents ds := by
    unfold concatLabels totalEvents
    rw [List.length_flatten, List.map_map]
    refine congrArg List.sum (List.map_congr_left ?_)
    intro d hd
    simp [(hdims d hd).1]
  have hDistLen : (concatDist ds).length = totalEvents ds := by
    unfold concatDist totalEvents
    rw [List.length_flatten, List.map_map]
    refine congrArg List.sum (List.map_congr_left ?_)
    intro d hd
    simp [(hdims d hd).2.1]
  have hAzLen : (concatAzimuth ds).length = totalEvents ds := by
    unfold concatAzimuth totalEvents
    rw [List.length_flatten, List.map_map]
    refine congrArg List.sum (List.map_congr_left ?_)
    intro d hd
    simp [(hdims d hd).2.2.1]
  have hStotLen : (concatStot ds).length = totalEvents ds := by
    unfold concatStot totalEvents
    rw [List.length_flatten, List.map_map]
    refine congrArg List.sum (List.map_congr_left ?_)
    intro d hd
    simp [(hdims d hd).2.2.2.1]
  have hInfoLen : (concatInfo ds).length = totalEvents ds := by
    unfold concatInfo totalEvents
    rw [List.length_flatten, List.map_map]
    refine congrArg List.sum (List.map_congr_left ?_)
    intro d hd
    obtain ⟨hE, hD, hA, hS, hTh, hS1, hNs, hTr, hDr, hAr, hSr, h2⟩ := hdims d hd
    simp only [Function.comp, create_info_event, List.length_map, List.length_zip]
    omega
  have hlens : lensOK ds = true :=
    (lensOK_eq_true_iff ds).mpr
      ⟨hLabLen.trans hTlen.symm, hDistLen.trans hTlen.symm,
       hInfoLen.trans hTlen.symm, hAzLen.trans hTlen.symm,
       hStotLen.trans hTlen.symm⟩
  have hrank : ∀ d ∈ ds, lgStotRank2 d.lg_Stot = true := by
    intro d hd
    obtain ⟨hE, hD, hA, hS, hTh, hS1, hNs, hTr, hDr, hAr, hSr, h2⟩ := hdims d hd
    cases hq : d.lg_Stot with
    | r2 a => rfl
    | r0 x =>
        rw [hq] at hS
        simp only [stotRows, List.length_cons, List.length_nil] at hS
        omega
    | r1 a =>
        rw [hq] at hS hSr
        cases a with
        | nil =>
            simp only [stotRows, List.map_nil, List.length_nil] at hS
            omega
        | cons x xs =>
            have h1st := hSr [x] (by simp [stotRows])
            simp only [List.length_cons, List.length_nil] at h1st
            omega
  have hTRlen : (tracesReshaped ds).length = totalEvents ds := by
    unfold tracesReshaped
    rw [List.length_map]
    exact hTlen
  refine ⟨?_, rfl, rfl, ?_, ?_, ?_, ?_, ?_, ?_, ?_, ?_, ?_, ?_, ?_⟩
  · unfold merge_and_shuffle
    rw [if_neg (by simp [hne]), if_pos (List.all_eq_true.mpr hrank), if_pos hlens]
  · rw [npShuffle_length]
    exact hTRlen
  · intro ev hev
    have hev2 : ev ∈ tracesReshaped ds := mem_npShuffle hev
    unfold tracesReshaped at hev2
    obtain ⟨ev', hev', rfl⟩ := List.mem_map.mp hev2
    unfold concatTraces at hev'
    rw [List.mem_flatten] at hev'
    obtain ⟨l, hl, hevm⟩ := hev'
    obtain ⟨d, hd, rfl⟩ := List.mem_map.mp hl
    obtain ⟨hevlen, hstats⟩ := (hdims d hd).2.2.2.2.2.2.2.1 ev' hevm
    refine ⟨by rw [List.length_map]; exact hevlen, ?_⟩
    intro stt hstt
    obtain ⟨s', hs', rfl⟩ := List.mem_map.mp hstt
    refine ⟨by rw [List.length_map]; exact hstats s' hs', ?_⟩
    intro x hx
    obtain ⟨y, hy, rfl⟩ := List.mem_map.mp hx
    rfl
  · rw [npShuffle_length]
    unfold distReshaped
    rw [List.length_map]
    exact hDistLen
  · intro r hr
    have hr2 : r ∈ distReshaped ds := mem_npShuffle hr
    unfold distReshaped at hr2
    obtain ⟨r', hr', rfl⟩ := List.mem_map.mp hr2
    unfold concatDist at hr'
    rw [List.mem_flatten] at hr'
    obtain ⟨l, hl, hrm⟩ := hr'
    obtain ⟨d, hd, rfl⟩ := List.mem_map.mp hl
    refine ⟨by rw [List.length_map]; exact (hdims d hd).2.2.2.2.2.2.2.2.1 r' hrm, ?_⟩
    intro x hx
    obtain ⟨y, hy, rfl⟩ := List.mem_map.mp hx
    rfl
  · rw [npShuffle_length]
    unfold stotReshaped
    rw [List.length_map]
    exact hStotLen
  · intro r hr
    have hr2 : r ∈ stotReshaped ds := mem_npShuffle hr
    unfold stotReshaped at hr2
    obtain ⟨r', hr', rfl⟩ := List.mem_map.mp hr2
    unfold concatStot at hr'
    rw [List.mem_flatten] at hr'
    obtain ⟨l, hl, hrm⟩ := hr'
    obtain ⟨d, hd, rfl⟩ := List.mem_map.mp hl
    refine ⟨by rw [List.length_map]; exact (hdims d hd).2.2.2.2.2.2.2.2.2.2.1 r' hrm, ?_⟩
    intro x hx
    obtain ⟨y, hy, rfl⟩ := List.mem_map.mp hx
    rfl
  · rw [npShuffle_length]
    unfold azReshaped
    rw [List.length_map]
    exact hAzLen
  · intro r hr
    have hr2 : r ∈ azReshaped ds := mem_npShuffle hr
    unfold azReshaped at hr2
    obtain ⟨r', hr', rfl⟩ := List.mem_map.mp hr2
    unfold concatAzimuth at hr'
    rw [List.mem_flatten] at hr'
    obtain ⟨l, hl, hrm⟩ := hr'
    obtain ⟨d, hd, rfl⟩ := List.mem_map.mp hl
    refine ⟨by rw [List.length_map]; exact (hdims d hd).2.2.2.2.2.2.2.2.2.1 r' hrm, ?_⟩
    intro x hx
    obtain ⟨y, hy, rfl⟩ := List.mem_map.mp hx
    rfl
  · rw [npShuffle_length]
    unfold infoReshaped
    rw [List.length_map]
    exact hInfoLen
  · intro r hr
    have hr2 : r ∈ infoReshaped ds := mem_npShuffle hr
    unfold infoReshaped at hr2
    obtain ⟨r', hr', rfl⟩ := List.mem_map.mp hr2
    unfold concatInfo at hr'
    rw [List.mem_flatten] at hr'
    obtain ⟨l, hl, hrm⟩ := hr'
    obtain ⟨d, hd, rfl⟩ := List.mem_map.mp hl
    unfold create_info_event at hrm
    obtain ⟨p, hp, rfl⟩ := List.mem_map.mp hrm
    refine ⟨rfl, ?_⟩
    intro x hx
    obtain ⟨y, hy, rfl⟩ := List.mem_map.mp hx
    rfl
  · rw [npShuffle_length]
    exact hLabLen

theorem C8_witness :
    ([wBatch] : List ProcessedData) ≠ []
    ∧ 2 ≤ 2
    ∧ (∀ d ∈ [wBatch], batchDims d 2)
    ∧ merge_and_shuffle draw0 0 [wBatch] 55
        = .ok (mergeContainer draw0 (seedOf 0 55) [wBatch]) := by
  have hdims : ∀ d ∈ [wBatch], batchDims d 2 := by
    intro d hd
    rw [List.mem_singleton] at hd
    subst hd
    refine ⟨rfl, rfl, rfl, rfl, rfl, rfl, rfl, ?_, ?_, ?_, ?_, by simp [wBatch]⟩
    · intro ev hev
      simp only [wBatch, List.mem_cons, List.mem_singleton, List.not_mem_nil,
        or_false] at hev
      rcases hev with rfl | rfl
      · exact ⟨rfl, by intro s hs; simp only [List.mem_cons, List.mem_singleton,
          List.not_mem_nil, or_false] at hs; rcases hs with rfl | rfl <;> simp⟩
      · exact ⟨rfl, by intro s hs; simp only [List.mem_cons, List.mem_singleton,
          List.not_mem_nil, or_false] at hs; rcases hs with rfl | rfl <;> simp⟩
    · intro r hr
      simp only [wBatch, List.mem_cons, List.mem_singleton, List.not_mem_nil,
        or_false] at hr
      rcases hr with rfl | rfl <;> rfl
    · intro r hr
      simp only [wBatch, List.mem_cons, List.mem_singleton, List.not_mem_nil,
        or_false] at hr
      rcases hr with rfl | rfl <;> rfl
    · intro r hr
      simp only [wBatch, stotRows, List.mem_cons, List.mem_singleton,
        List.not_mem_nil, or_false] at hr
      rcases hr with rfl | rfl <;> rfl
  exact ⟨by simp, le_refl 2, hdims,
    (C8_writer_keys_and_shapes draw0 0 55 [wBatch] 2 (by simp) (le_refl 2) hdims).1⟩

/-! ### Empty batches (claim C9) -/

/-- A raw source batch with zero events, as the reader materializes it
(every column an empty array; `np.array([])` has shape `(0,)`). -/
noncomputable def emptyBatch : TreeData where
  Ene_MC := []
  Ene := []
  Dist := []
  traces := []
  ID := []
  t0 := []
  theta := []
  Stot := []
  S1000 := []
  azimuth := []
  Nstat := []

/-- A processed batch with zero events (all columns empty). -/
noncomputable def emptyProcessed : ProcessedData where
  lgE_MC := []
  lgE := []
  Dist := []
  traces_cum := []
  ID := []
  t0 := []
  theta := []
  lg_Stot := NpSq.r1 []
  lg_S1000 := []
  azimuth := []
  Nstat := []
  label := 0

/-- C9 (counterexample): transforming an empty source batch does not
complete cleanly — the 0-event traces array materializes as 1-dimensional,
so the slice `traces[:, :, :150]` raises `IndexError`. -/
theorem C9_counterexample :
    process_data emptyBatch false 1 100 = .error .IndexErr := by
  simp [process_data, emptyBatch, rank3]

/-- C9 (amended): neither half of the claim holds on the code: transforming
an empty source batch raises an `IndexError` at the trace truncation, and
merging already-processed 0-event batches raises a numpy shape error at the
`lg_Stot` reshape (squeeze collapses the empty rescaled-signal array to one
dimension), so no 0-row dataset is produced. -/
theorem C9_empty_batches_not_clean (draw : Nat → Nat → Nat → Nat)
    (entropy : Nat) (s : Int) (ds : List ProcessedData)
    (hne : ds ≠ [])
    (hempty : ∀ d ∈ ds, d.lg_Stot = NpSq.r1 []) :
    merge_and_shuffle draw entropy ds s = .error .ShapeErr
    ∧ process_data emptyBatch false 1 100 = .error .IndexErr := by
  constructor
  · unfold merge_and_shuffle
    rw [if_neg (by simp [hne])]
    have hall : ds.all (fun d => lgStotRank2 d.lg_Stot) = false := by
      match ds, hne with
      | d :: ds', _ =>
          rw [List.all_cons, hempty d (List.mem_cons_self ..)]
          rfl
    rw [if_neg (by simp [hall])]
  · simp [process_data, emptyBatch, rank3]

theorem C9_witness :
    ([emptyProcessed] : List ProcessedData) ≠ []
    ∧ (∀ d ∈ [emptyProcessed], d.lg_Stot = NpSq.r1 [])
    ∧ merge_and_shuffle draw0 0 [emptyProcessed] 55 = .error .ShapeErr := by
  have hempty : ∀ d ∈ [emptyProcessed], d.lg_Stot = NpSq.r1 [] := by
    intro d hd
    rw [List.mem_singleton] at hd
    subst hd
    rfl
  exact ⟨by simp, hempty,
    (C9_empty_batches_not_clean draw0 0 55 [emptyProcessed] (by simp) hempty).1⟩

/-! ### Frame property of the trace loop (claim C10) -/

/-- C10: `process_data` leaves the input batch unmodified: the trace
normalization operates on the buffer freshly allocated by `np.copy`, so
every buffer that existed before the call — in particular the one holding
the input traces, and any other input column — holds the same value
afterwards.  (All other derived columns are produced by allocating numpy
operations; the two nested loops are the only assignments in
`process_data`.) -/
theorem C10_input_buffers_unmodified (h : TraceHeap) (rIn r : Nat)
    (hr : r < h.next) :
    readH (process_data_traces h rIn).1 r = readH h r := by
  have halloc : readH (allocH h (readH h rIn)).1 r = readH h r := by
    unfold allocH readH
    simp only []
    rw [if_neg (by omega)]
  have hwrite : ∀ (hh : TraceHeap) (p : Nat × Nat),
      readH (stationWrite hh h.next p.1 p.2) r = readH hh r := by
    intro hh p
    unfold stationWrite writeH readH
    simp only []
    rw [if_neg (by omega)]
  have hloop : ∀ (l : List (Nat × Nat)) (hh : TraceHeap),
      readH (l.foldl (fun hh p => stationWrite hh h.next p.1 p.2) hh) r
        = readH hh r := by
    intro l
    induction l with
    | nil => intro hh; rfl
    | cons p l ih =>
        intro hh
        rw [List.foldl_cons, ih, hwrite]
  show readH (traces_loop (allocH h (readH h rIn)).1 (allocH h (readH h rIn)).2) r
      = readH h r
  unfold traces_loop
  exact (hloop _ _).trans halloc

/-- A one-buffer heap for the C10 witness. -/
noncomputable def heap0 : TraceHeap where
  next := 1
  mem := fun _ => [[[0]]]

theorem C10_witness :
    0 < heap0.next
    ∧ readH (process_data_traces heap0 0).1 0 = readH heap0 0 :=
  ⟨Nat.zero_lt_one, C10_input_buffers_unmodified heap0 0 0 Nat.zero_lt_one⟩

end ExploreSim
